import Mathlib

/-!
Shallow embedding of `pkg/keyvisual/decorator/tidb_requests.go` (tidb-dashboard):
the schema-label refresh cycle `updateMap` of `tidbLabelStrategy`, its two table-map
builders `updateTableMap` / `updateTableMapByDBTableInfos`, and the Go standard-library
helpers it relies on (`strconv.ParseInt`, `strconv.FormatInt`, `strings.Contains`,
`url.PathEscape`).  External collaborators (etcd client, HTTP transport plus JSON
decoding) are modelled as an environment record of typed response oracles; each
outbound request is recorded in a trace.
-/

set_option maxRecDepth 8192

namespace TidbRequests

/-! ## Go standard-library helpers -/

/-- Does the pattern list lead (start) the other character list?  Helper for
`strings.Contains`. -/
def charsLead : List Char → List Char → Bool
  | [], _ => true
  | _ :: _, [] => false
  | p :: ps, c :: cs => p = c && charsLead ps cs

/-- Does the pattern occur as a contiguous run inside the character list? -/
def charsSub (pat : List Char) : List Char → Bool
  | [] => charsLead pat []
  | c :: cs => charsLead pat (c :: cs) || charsSub pat cs

/-- Model of Go `strings.Contains s sub`. -/
def strContains (s sub : String) : Bool := charsSub sub.data s.data

/-- Decimal digit accumulation for `strconv.ParseInt` (base 10): fails on any
non-digit character. -/
def parseDigits : List Char → Nat → Option Nat
  | [], acc => some acc
  | c :: cs, acc =>
    if 48 ≤ c.toNat ∧ c.toNat ≤ 57 then parseDigits cs (acc * 10 + (c.toNat - 48))
    else none

/-- Model of Go `strconv.ParseInt(s, 10, 64)`: optional sign, at least one decimal
digit, value within the signed 64-bit range; any failure (including range overflow,
which Go reports as an error) is `none`. -/
def parseInt64 (s : String) : Option Int :=
  match s.data with
  | [] => none
  | c :: cs =>
    let signAndDigits : Bool × List Char :=
      if c = '-' then (true, cs) else if c = '+' then (false, cs) else (false, c :: cs)
    match signAndDigits.2 with
    | [] => none
    | d :: ds =>
      match parseDigits (d :: ds) 0 with
      | none => none
      | some n =>
        if signAndDigits.1 then
          if n ≤ 2 ^ 63 then some (-(n : Int)) else none
        else
          if n ≤ 2 ^ 63 - 1 then some (n : Int) else none

/-- Decimal digits of a natural number, most significant first. -/
def natDigits (n : Nat) : List Char :=
  (Nat.toDigits 10 n)

/-- Model of Go `strconv.FormatInt(i, 10)`. -/
def formatInt (i : Int) : String :=
  match i with
  | Int.ofNat n => String.mk (natDigits n)
  | Int.negSucc m => String.mk ('-' :: natDigits (m + 1))

/-- Uppercase hexadecimal digit, as used by Go `net/url` escaping. -/
def hexDigitChar (n : Nat) : Char :=
  if n < 10 then Char.ofNat (48 + n) else Char.ofNat (55 + n)

/-- Go `net/url.shouldEscape(c, encodePathSegment)`: unreserved characters and the
sub-delimiters allowed in a path segment stay; `/ ; , ?` and everything else are
escaped. -/
def shouldEscape (c : Char) : Bool :=
  if ('a' ≤ c ∧ c ≤ 'z') ∨ ('A' ≤ c ∧ c ≤ 'Z') ∨ ('0' ≤ c ∧ c ≤ '9') then false
  else if c = '-' ∨ c = '_' ∨ c = '.' ∨ c = '~' then false
  else if c = '$' ∨ c = '&' ∨ c = '+' ∨ c = ':' ∨ c = '=' ∨ c = '@' then false
  else true

/-- Escape one character as Go `net/url.PathEscape` does (per code point; exact for
ASCII, which is all the claims exercise). -/
def escapeChar (c : Char) : List Char :=
  if shouldEscape c then ['%', hexDigitChar (c.toNat % 256 / 16), hexDigitChar (c.toNat % 16)]
  else [c]

/-- Model of Go `url.PathEscape`. -/
def pathEscape (s : String) : String := String.mk (s.data.map escapeChar).flatten

/-! ## Data model (`pkg/tidb/model`)

Modelled from the spec: the `model` package is not under `src/`; the spec describes a
table description as "(id, name, database name, index list, optional partition list)"
and a database as carrying a name and a lifecycle state whose only distinguished value
is the absent/dropped state `StateNone`.  TiDB's `CIStr` names are collapsed to their
original string (`.O`), the only field the source reads. -/

/-- One secondary index of a table (`model.IndexInfo`): its id and declared name. -/
structure IndexInfo where
  id : Int
  name : String
  deriving DecidableEq, Repr

/-- One partition of a table (`model.PartitionDefinition`): its id and name. -/
structure PartitionDefinition where
  id : Int
  name : String
  deriving DecidableEq, Repr

/-- Modelled from the spec: `model.PartitionInfo`, the partition list of a table. -/
structure PartitionInfo where
  definitions : List PartitionDefinition
  deriving DecidableEq, Repr

/-- Modelled from the spec: a table description `model.TableInfo` — id, name, index
list, optional partition list. -/
structure TableInfo where
  id : Int
  name : String
  indices : List IndexInfo
  partition : Option PartitionInfo
  deriving DecidableEq, Repr

/-- Modelled from the spec: `model.TableInfo.GetPartitionInfo` returns the table's
optional partition list. -/
def getPartitionInfo (t : TableInfo) : Option PartitionInfo := t.partition

/-- Modelled from the spec: `model.SchemaState`; the spec distinguishes only the
absent/dropped state (`StateNone`) from the live states. -/
inductive SchemaState where
  | stateNone
  | stateDeleteOnly
  | stateWriteOnly
  | stateWriteReorganization
  | stateDeleteReorganization
  | statePublic
  deriving DecidableEq, Repr

/-- A database description (`model.DBInfo`): name and lifecycle state. -/
structure DBInfo where
  name : String
  state : SchemaState
  deriving DecidableEq, Repr

/-- Modelled from the spec: `model.DBTableInfo`, a combined database+table
description as returned by the batched `/db-table` endpoint. -/
structure DBTableInfo where
  dbInfo : DBInfo
  tableInfo : TableInfo
  deriving DecidableEq, Repr

/-! ## The lookup map and the label builder -/

/-- A Go `map[int64]string` as its insertion sequence; the newest insertion is put in
front so that `indexLookup` (first match) realises Go's overwrite semantics. -/
abbrev IndexMap := List (Int × String)

def indexInsert (m : IndexMap) (k : Int) (v : String) : IndexMap := (k, v) :: m

def indexLookup (m : IndexMap) (k : Int) : Option String :=
  (m.find? fun p => p.1 == k).map Prod.snd

/-- The index-name map a builder constructs from a table's index list:
`indices[index.ID] = index.Name.O` for each index, in order. -/
def mkIndices (idx : List IndexInfo) : IndexMap :=
  idx.foldl (fun m i => indexInsert m i.id i.name) []

/-- The `tableDetail` entry stored in the lookup map. -/
structure TableDetail where
  name : String
  db : String
  id : Int
  indices : IndexMap
  deriving DecidableEq, Repr

/-- The shared lookup (`s.TableMap`, a `sync.Map`) as its store sequence; newest
store in front, `tableLookup` takes the first match (overwrite semantics). -/
abbrev TableMap := List (Int × TableDetail)

/-- Model of `s.TableMap.Store(key, detail)`. -/
def tableStore (m : TableMap) (k : Int) (v : TableDetail) : TableMap := (k, v) :: m

/-- Model of a load from `s.TableMap`. -/
def tableLookup (m : TableMap) (k : Int) : Option TableDetail :=
  (m.find? fun p => p.1 == k).map Prod.snd

/-- `tidbLabelStrategy.updateTableMap` (tidb_requests.go:134-162): for every table of
one database, store the table entry and, when a partition list is present, one entry
per partition named `"<table>/<partition>"` sharing the table's index map. -/
def updateTableMap (dbname : String) (tableInfos : List TableInfo) (m : TableMap) : TableMap :=
  tableInfos.foldl
    (fun m table =>
      let indices := mkIndices table.indices
      let m := tableStore m table.id
        { name := table.name, db := dbname, id := table.id, indices := indices }
      match getPartitionInfo table with
      | none => m
      | some partInfo =>
        partInfo.definitions.foldl
          (fun m partitionDef =>
            tableStore m partitionDef.id
              { name := table.name ++ "/" ++ partitionDef.name, db := dbname,
                id := partitionDef.id, indices := indices })
          m)
    m

/-- `tidbLabelStrategy.updateTableMapByDBTableInfos` (tidb_requests.go:164-192): same
per-table work as `updateTableMap`, driven by the decoded `/db-table` response, a Go
map given here as its iteration sequence of (key, value) entries. -/
def updateTableMapByDBTableInfos (dbTableInfos : List (Nat × DBTableInfo)) (m : TableMap) :
    TableMap :=
  dbTableInfos.foldl
    (fun m entry =>
      let dbTable := entry.2
      let indices := mkIndices dbTable.tableInfo.indices
      let m := tableStore m dbTable.tableInfo.id
        { name := dbTable.tableInfo.name, db := dbTable.dbInfo.name,
          id := dbTable.tableInfo.id, indices := indices }
      match getPartitionInfo dbTable.tableInfo with
      | none => m
      | some partInfo =>
        partInfo.definitions.foldl
          (fun m partitionDef =>
            tableStore m partitionDef.id
              { name := dbTable.tableInfo.name ++ "/" ++ partitionDef.name,
                db := dbTable.dbInfo.name, id := partitionDef.id, indices := indices })
          m)
    m

/-! ## Environment, requests, and strategy state

`tidbLabelStrategy`'s collaborators (etcd client, `s.request` = HTTP GET + JSON
decode) are an environment of typed oracles, one per endpoint family, each keyed by
the exact request path the source builds.  `Except.error` covers both transport
errors and decode failures (the source treats them alike), carrying the Go error
message so that `strings.Contains(err.Error(), "404")` can be modelled. -/

/-- A request error (`error` from `s.request` or decode): its `Error()` message. -/
structure ReqErr where
  msg : String
  deriving DecidableEq, Repr

/-- One key-value of an etcd get response; only the value is read. -/
structure EtcdKv where
  value : String
  deriving DecidableEq, Repr

/-- An etcd get response: its list of key-values (`resp.Kvs`). -/
structure EtcdResp where
  kvs : List EtcdKv
  deriving DecidableEq, Repr

/-- The external world of one (or more) refresh cycles.  `etcd = none` models
`EtcdClient.Get` returning a non-nil error; `getTableIDs = none` models a nil
`s.getTableIDs` function, `some ids` the iteration sequence of the returned
`map[int64]struct{}` set. -/
structure TidbEnv where
  etcd : Option EtcdResp
  getTableIDs : Option (List Int)
  dbTable : String → Except ReqErr (List (Nat × DBTableInfo))
  schema : Except ReqErr (List DBInfo)
  schemaDb : String → Except ReqErr (List TableInfo)

/-- One outbound request, as recorded in a cycle's trace, tagged by call site and
carrying the exact path the source builds. -/
inductive Req where
  | etcdGet (path : String)
  | dbTable (path : String)
  | schema (path : String)
  | schemaDb (path : String)
  deriving DecidableEq, Repr

/-- Did a request succeed? -/
def reqOk {α : Type} : Except ReqErr α → Bool
  | Except.ok _ => true
  | Except.error _ => false

/-- The constant `schemaVersionPath` (tidb_requests.go:23). -/
def schemaVersionPath : String := "/tidb/ddl/global_schema_version"

/-- The constant `tableInfosBatchSize` (tidb_requests.go:25). -/
def tableInfosBatchSize : Nat := 512

/-- The path of one batched request: `fmt.Sprintf("/db-table?table_ids=%s",
strings.Join(batch, ","))`. -/
def dbTablePath (batch : List String) : String :=
  "/db-table?table_ids=" ++ String.intercalate "," batch

/-- The path of one per-database request: `fmt.Sprintf("/schema/%s",
url.PathEscape(db.Name.O))`. -/
def schemaDbPath (dbname : String) : String := "/schema/" ++ pathEscape dbname

/-- The mutable fields of `tidbLabelStrategy` that `updateMap` reads and writes. -/
structure LabelState where
  schemaVersion : Int
  dbTableInfosEndpointNotFound : Bool
  tableMap : TableMap
  deriving DecidableEq, Repr

/-! ## The refresh cycle `updateMap` (tidb_requests.go:34-131) -/

/-- The batching loop of `updateMap` (tidb_requests.go:69-84): append the decimal
form of each id to the current batch, flush it whenever it reaches
`tableInfosBatchSize`, and flush a final non-empty remainder. -/
def mkBatchesAux (bs : List (List String)) (batch : List String) (n : Nat) :
    List Int → List (List String)
  | [] => if batch.length > 0 then bs ++ [batch] else bs
  | id :: ids =>
    let batch := batch ++ [formatInt id]
    let n := n + 1
    if n = tableInfosBatchSize then mkBatchesAux (bs ++ [batch]) [] 0 ids
    else mkBatchesAux bs batch n ids

/-- The batches of id strings built from the known-identifier iteration sequence. -/
def mkBatches (ids : List Int) : List (List String) :=
  mkBatchesAux [] [] 0 ids

/-- Result of the batched-fetch loop: the table map, the endpoint-not-found flag,
the requests issued, and `updateSuccess`. -/
structure BatchOut where
  tableMap : TableMap
  notFound : Bool
  trace : List Req
  success : Bool
  deriving Repr

/-- The `for _, batch := range tableIDBatches` loop of `updateMap`
(tidb_requests.go:85-97): one `/db-table` request per batch; on error, set the
not-found flag exactly when the message contains "404", stop (`break`) with
`updateSuccess = false`; on success apply the batch to the table map at once. -/
def batchLoop (env : TidbEnv) : List (List String) → TableMap → Bool → BatchOut
  | [], m, nf => { tableMap := m, notFound := nf, trace := [], success := true }
  | batch :: rest, m, nf =>
    let path := dbTablePath batch
    match env.dbTable path with
    | Except.error e =>
      { tableMap := m,
        notFound := if strContains e.msg "404" then true else nf,
        trace := [Req.dbTable path], success := false }
    | Except.ok dbTableInfos =>
      let out := batchLoop env rest (updateTableMapByDBTableInfos dbTableInfos m) nf
      { out with trace := Req.dbTable path :: out.trace }

/-- Result of the full-scan loop over databases. -/
structure ScanOut where
  tableMap : TableMap
  trace : List Req
  success : Bool
  deriving Repr

/-- The `for _, db := range dbInfos` loop of `updateMap` (tidb_requests.go:112-124):
skip databases in `StateNone`; request each remaining database's table list; on
error force `updateSuccess = false` and `continue`; on success apply the tables. -/
def fullScanLoop (env : TidbEnv) : List DBInfo → TableMap → ScanOut
  | [], m => { tableMap := m, trace := [], success := true }
  | db :: rest, m =>
    if db.state = SchemaState.stateNone then fullScanLoop env rest m
    else
      let path := schemaDbPath db.name
      match env.schemaDb path with
      | Except.error _ =>
        let out := fullScanLoop env rest m
        { tableMap := out.tableMap, trace := Req.schemaDb path :: out.trace,
          success := false }
      | Except.ok tableInfos =>
        let out := fullScanLoop env rest (updateTableMap db.name tableInfos m)
        { tableMap := out.tableMap, trace := Req.schemaDb path :: out.trace,
          success := out.success }

/-- The full-scan tail of `updateMap` (tidb_requests.go:104-131): request `/schema`;
on error return with nothing else changed; otherwise run the per-database loop and
commit `SchemaVersion` only when every database succeeded. -/
def fullScanPhase (env : TidbEnv) (s : LabelState) (schemaVersion : Int) (tr : List Req) :
    LabelState × List Req :=
  let tr := tr ++ [Req.schema "/schema"]
  match env.schema with
  | Except.error _ => (s, tr)
  | Except.ok dbInfos =>
    let out := fullScanLoop env dbInfos s.tableMap
    if out.success then
      ({ s with tableMap := out.tableMap, schemaVersion := schemaVersion },
        tr ++ out.trace)
    else
      ({ s with tableMap := out.tableMap }, tr ++ out.trace)

/-- The body of `updateMap` once the schema version is known to have changed
(tidb_requests.go:63-131): when `getTableIDs` is non-nil and the endpoint is not
known to be missing, short-circuit on an empty id set, otherwise run the batched
strategy and commit on full success; on any batch failure, or when the batched
strategy is not eligible, fall through to the full scan. -/
def updateMapChanged (env : TidbEnv) (s : LabelState) (schemaVersion : Int)
    (tr : List Req) : LabelState × List Req :=
  match env.getTableIDs, s.dbTableInfosEndpointNotFound with
  | some tableIDs, false =>
    if tableIDs.length = 0 then (s, tr)
    else
      let out := batchLoop env (mkBatches tableIDs) s.tableMap false
      let s := { s with tableMap := out.tableMap,
                        dbTableInfosEndpointNotFound := out.notFound }
      if out.success then
        ({ s with schemaVersion := schemaVersion }, tr ++ out.trace)
      else
        fullScanPhase env s schemaVersion (tr ++ out.trace)
  | _, _ => fullScanPhase env s schemaVersion tr

/-- `tidbLabelStrategy.updateMap` (tidb_requests.go:34-131): fetch the schema
version from etcd (error, a key-value count other than one, or an unparseable value
aborts the cycle); skip when unchanged; otherwise run the eligible strategies. -/
def updateMap (env : TidbEnv) (s : LabelState) : LabelState × List Req :=
  let tr : List Req := [Req.etcdGet schemaVersionPath]
  match env.etcd with
  | none => (s, tr)
  | some resp =>
    match resp.kvs with
    | [kv] =>
      match parseInt64 kv.value with
      | none => (s, tr)
      | some schemaVersion =>
        if schemaVersion = s.schemaVersion then (s, tr)
        else updateMapChanged env s schemaVersion tr
    | _ => (s, tr)

/-- A sequence of refresh cycles, one environment per cycle, collecting each
cycle's trace: the process-lifetime behaviour of `tidbLabelStrategy`. -/
def runCycles : LabelState → List TidbEnv → LabelState × List (List Req)
  | s, [] => (s, [])
  | s, env :: envs =>
    let first := updateMap env s
    let rest := runCycles first.1 envs
    (rest.1, first.2 :: rest.2)

/-! ## Specification vocabulary (predicates used only in theorem statements) -/

/-- Specification predicate: does the first failing batched request of the given
batch sequence (if any) carry the "404" not-found signal? -/
def firstFail404 (env : TidbEnv) : List (List String) → Bool
  | [] => false
  | batch :: rest =>
    match env.dbTable (dbTablePath batch) with
    | Except.error e => strContains e.msg "404"
    | Except.ok _ => firstFail404 env rest

/-- Specification function: the batch sizes expected for `t` identifiers — full
batches of `tableInfosBatchSize` followed by a non-zero remainder batch. -/
def chunkSizes (t : Nat) : List Nat :=
  List.replicate (t / tableInfosBatchSize) tableInfosBatchSize ++
    (if t % tableInfosBatchSize = 0 then [] else [t % tableInfosBatchSize])

/-- The identifiers a single table description contributes to the lookup map: the
table id and, when a partition list is present, each partition id. -/
def tableInfoIds (t : TableInfo) : List Int :=
  t.id ::
    (match getPartitionInfo t with
     | none => []
     | some partInfo => partInfo.definitions.map fun pd => pd.id)

/-- The per-table store sequence shared by both builders (see `applyTable_eq`):
partition entries (newest first) on top of the table's own entry. -/
def tableEntries (dbname : String) (t : TableInfo) : List (Int × TableDetail) :=
  let indices := mkIndices t.indices
  (match getPartitionInfo t with
   | none => []
   | some partInfo =>
     (partInfo.definitions.map fun pd =>
       ((pd.id : Int),
        ({ name := t.name ++ "/" ++ pd.name, db := dbname, id := pd.id,
           indices := indices } : TableDetail))).reverse)
  ++ [(t.id, { name := t.name, db := dbname, id := t.id, indices := indices })]

/-- The loop body of `updateTableMap` for one table, named so that the fold can be
peeled one table at a time (definitionally equal to the inlined body). -/
def applyTable (dbname : String) (table : TableInfo) (m : TableMap) : TableMap :=
  let indices := mkIndices table.indices
  let m := tableStore m table.id
    { name := table.name, db := dbname, id := table.id, indices := indices }
  match getPartitionInfo table with
  | none => m
  | some partInfo =>
    partInfo.definitions.foldl
      (fun m partitionDef =>
        tableStore m partitionDef.id
          { name := table.name ++ "/" ++ partitionDef.name, db := dbname,
            id := partitionDef.id, indices := indices })
      m

/-! ## Concrete inputs for witnesses and counterexamples -/

/-- A first-ever strategy state: version marker unset (-1), capability intact,
empty lookup. -/
def stateFresh : LabelState :=
  { schemaVersion := -1, dbTableInfosEndpointNotFound := false, tableMap := [] }

/-- A plain table description with one index and no partitions. -/
def plainTable : TableInfo :=
  { id := 1, name := "t", indices := [{ id := 7, name := "i" }], partition := none }

/-- A live database named `d`. -/
def liveDb : DBInfo := { name := "d", state := SchemaState.statePublic }

/-- A dropped database (lifecycle state `StateNone`). -/
def droppedDb : DBInfo := { name := "gone", state := SchemaState.stateNone }

/-- Environment for the C4 counterexample: version `5` available, identifier
provider present but returning the empty set, all HTTP endpoints healthy. -/
def envC4 : TidbEnv :=
  { etcd := some { kvs := [{ value := "5" }] },
    getTableIDs := some [],
    dbTable := fun _ => Except.ok [],
    schema := Except.ok [liveDb],
    schemaDb := fun _ => Except.ok [plainTable] }

/-- Environment for the C4 amended theorem's witness: same world but the
identifier provider is absent (`nil` function). -/
def envC4b : TidbEnv := { envC4 with getTableIDs := none }

/-- Environment for C1/C2 witnesses: version `5`, one known identifier, the
batched endpoint failing with a non-404 transport error, full scan healthy. -/
def envBatchFail : TidbEnv :=
  { etcd := some { kvs := [{ value := "5" }] },
    getTableIDs := some [3],
    dbTable := fun _ => Except.error { msg := "connection refused" },
    schema := Except.ok [liveDb],
    schemaDb := fun _ => Except.ok [plainTable] }

/-- Environment for a C2 witness run with the capability flag already set: version
changes, identifiers exist, yet no batched request may be issued. -/
def envAfter404 : TidbEnv :=
  { etcd := some { kvs := [{ value := "6" }] },
    getTableIDs := some [3, 4],
    dbTable := fun _ => Except.error { msg := "http status 404" },
    schema := Except.ok [liveDb],
    schemaDb := fun _ => Except.ok [plainTable] }

/-- A state whose capability flag records that `/db-table` does not exist. -/
def stateFlagSet : LabelState :=
  { schemaVersion := 2, dbTableInfosEndpointNotFound := true, tableMap := [] }

/-- The 517 identifiers of the C5 witness. -/
def ids517 : List Int := (List.range 517).map Int.ofNat

/-- Environment for the C5 witness: every batched request succeeds (with an empty
description map; only the request count is at stake). -/
def envC5 : TidbEnv :=
  { etcd := some { kvs := [{ value := "9" }] },
    getTableIDs := some ids517,
    dbTable := fun _ => Except.ok [],
    schema := Except.ok [],
    schemaDb := fun _ => Except.ok [] }

/-- The `orders` table with partition `p0`, for the C6 witness. -/
def ordersTable : TableInfo :=
  { id := 10, name := "orders", indices := [{ id := 1, name := "idx" }],
    partition := some { definitions := [{ id := 11, name := "p0" }] } }

/-- Environment for C7/C8 witnesses: the table list of database `d` is available,
any other database's table list request fails. -/
def envScan : TidbEnv :=
  { etcd := some { kvs := [{ value := "5" }] },
    getTableIDs := none,
    dbTable := fun _ => Except.ok [],
    schema := Except.ok [liveDb, droppedDb],
    schemaDb := fun p =>
      if p = schemaDbPath "d" then Except.ok [plainTable]
      else Except.error { msg := "boom" } }

/-- A database whose table-list request fails under `envScan`. -/
def failingDb : DBInfo := { name := "bad", state := SchemaState.statePublic }

/-- A lookup map holding one pre-existing entry, for the C9 witness. -/
def preMap : TableMap :=
  [(99, { name := "old", db := "d", id := 99, indices := [] })]

/-- A state carrying `preMap`, for the C9 witness. -/
def statePre : LabelState :=
  { schemaVersion := -1, dbTableInfosEndpointNotFound := false, tableMap := preMap }

/-- A state whose version marker is already 5, for the C3 witness. -/
def stateV5 : LabelState :=
  { schemaVersion := 5, dbTableInfosEndpointNotFound := false, tableMap := preMap }

/-- Environment reporting the same version 5 again, for the C3 witness. -/
def envSame : TidbEnv :=
  { etcd := some { kvs := [{ value := "5" }] },
    getTableIDs := some [3],
    dbTable := fun _ => Except.ok [],
    schema := Except.ok [liveDb],
    schemaDb := fun _ => Except.ok [plainTable] }

/-! ## Helper lemmas: store sequences and lookup monotonicity -/

/-- A left fold that only conses pushes the reversed image on top of the seed. -/
theorem foldl_cons_rev {α β : Type} (g : α → β) :
    ∀ (l : List α) (m : List β),
      l.foldl (fun m x => g x :: m) m = (l.map g).reverse ++ m
  | [], _ => rfl
  | x :: l, m => by
    simp only [List.foldl_cons, List.map_cons, List.reverse_cons, List.append_assoc,
      List.singleton_append]
    exact foldl_cons_rev g l (g x :: m)

/-- Peeling one table off `updateTableMap` yields the named loop body. -/
theorem updateTableMap_cons (dbname : String) (t : TableInfo) (ts : List TableInfo)
    (m : TableMap) :
    updateTableMap dbname (t :: ts) m = updateTableMap dbname ts (applyTable dbname t m) :=
  rfl

/-- The loop body of one table is exactly its store sequence on top of the map. -/
theorem applyTable_eq (dbname : String) (t : TableInfo) (m : TableMap) :
    applyTable dbname t m = tableEntries dbname t ++ m := by
  unfold applyTable tableEntries tableStore
  cases hp : getPartitionInfo t with
  | none => simp
  | some partInfo =>
    simp only [List.append_assoc, List.singleton_append]
    exact foldl_cons_rev
      (fun pd : PartitionDefinition => ((pd.id : Int),
        ({ name := t.name ++ "/" ++ pd.name, db := dbname, id := pd.id,
           indices := mkIndices t.indices } : TableDetail)))
      partInfo.definitions _

/-- Every key a table's store sequence touches is among that table's ids. -/
theorem tableEntries_keys (dbname : String) (t : TableInfo) :
    ∀ p ∈ tableEntries dbname t, p.1 ∈ tableInfoIds t := by
  intro p hp
  unfold tableEntries at hp
  cases hgp : getPartitionInfo t with
  | none =>
    rw [hgp] at hp
    simp only [List.nil_append, List.mem_singleton] at hp
    subst hp
    simp [tableInfoIds, hgp]
  | some partInfo =>
    rw [hgp] at hp
    rcases List.mem_append.mp hp with h | h
    · rw [List.mem_reverse] at h
      obtain ⟨pd, hpd, hg⟩ := List.mem_map.mp h
      rw [← hg]
      simp only [tableInfoIds, hgp, List.mem_cons]
      exact Or.inr (List.mem_map.mpr ⟨pd, hpd, rfl⟩)
    · rw [List.mem_singleton] at h
      subst h
      simp [tableInfoIds, hgp]

/-- `updateTableMap` only pushes entries for encountered ids on top of the map. -/
theorem updateTableMap_grows (dbname : String) :
    ∀ (ts : List TableInfo) (m : TableMap),
      ∃ l, updateTableMap dbname ts m = l ++ m ∧
        ∀ p ∈ l, p.1 ∈ (ts.map tableInfoIds).flatten
  | [], m => ⟨[], rfl, by simp⟩
  | t :: ts, m => by
    rw [updateTableMap_cons, applyTable_eq]
    obtain ⟨l, hl, hk⟩ := updateTableMap_grows dbname ts (tableEntries dbname t ++ m)
    refine ⟨l ++ tableEntries dbname t, by rw [hl, List.append_assoc], ?_⟩
    intro p hp
    simp only [List.map_cons, List.flatten_cons, List.mem_append]
    rcases List.mem_append.mp hp with h | h
    · right
      simpa using hk p h
    · left
      exact tableEntries_keys dbname t p h

/-- Peeling one entry off `updateTableMapByDBTableInfos` also yields the shared
loop body, applied to that entry's database name and table. -/
theorem updateTableMapByDBTableInfos_cons (e : Nat × DBTableInfo)
    (rest : List (Nat × DBTableInfo)) (m : TableMap) :
    updateTableMapByDBTableInfos (e :: rest) m =
      updateTableMapByDBTableInfos rest (applyTable e.2.dbInfo.name e.2.tableInfo m) :=
  rfl

/-- `updateTableMapByDBTableInfos` only pushes entries for encountered ids. -/
theorem updateTableMapByDBTableInfos_grows :
    ∀ (infos : List (Nat × DBTableInfo)) (m : TableMap),
      ∃ l, updateTableMapByDBTableInfos infos m = l ++ m ∧
        ∀ p ∈ l, p.1 ∈ (infos.map fun q => tableInfoIds q.2.tableInfo).flatten
  | [], m => ⟨[], rfl, by simp⟩
  | e :: rest, m => by
    rw [updateTableMapByDBTableInfos_cons, applyTable_eq]
    obtain ⟨l, hl, hk⟩ :=
      updateTableMapByDBTableInfos_grows rest (tableEntries e.2.dbInfo.name e.2.tableInfo ++ m)
    refine ⟨l ++ tableEntries e.2.dbInfo.name e.2.tableInfo,
      by rw [hl, List.append_assoc], ?_⟩
    intro p hp
    simp only [List.map_cons, List.flatten_cons, List.mem_append]
    rcases List.mem_append.mp hp with h | h
    · right
      simpa using hk p h
    · left
      exact tableEntries_keys e.2.dbInfo.name e.2.tableInfo p h

/-- A key found in a map is still found after any entries are pushed on top. -/
theorem tableLookup_append_isSome (l : TableMap) (m : TableMap) (k : Int)
    (h : (tableLookup m k).isSome = true) :
    (tableLookup (l ++ m) k).isSome = true := by
  unfold tableLookup at h ⊢
  rw [List.find?_append]
  cases hl : List.find? (fun p => p.1 == k) l with
  | none => simpa using h
  | some v => simp

/-! ## Helper lemmas: the batched strategy -/

theorem batchLoop_nil (env : TidbEnv) (m : TableMap) (nf : Bool) :
    batchLoop env [] m nf = { tableMap := m, notFound := nf, trace := [], success := true } :=
  rfl

theorem batchLoop_cons_err (env : TidbEnv) (b : List String) (rest : List (List String))
    (m : TableMap) (nf : Bool) (e : ReqErr)
    (he : env.dbTable (dbTablePath b) = Except.error e) :
    batchLoop env (b :: rest) m nf =
      { tableMap := m, notFound := if strContains e.msg "404" then true else nf,
        trace := [Req.dbTable (dbTablePath b)], success := false } := by
  simp only [batchLoop, he]

theorem batchLoop_cons_ok (env : TidbEnv) (b : List String) (rest : List (List String))
    (m : TableMap) (nf : Bool) (infos : List (Nat × DBTableInfo))
    (he : env.dbTable (dbTablePath b) = Except.ok infos) :
    batchLoop env (b :: rest) m nf =
      { tableMap := (batchLoop env rest (updateTableMapByDBTableInfos infos m) nf).tableMap,
        notFound := (batchLoop env rest (updateTableMapByDBTableInfos infos m) nf).notFound,
        trace := Req.dbTable (dbTablePath b) ::
          (batchLoop env rest (updateTableMapByDBTableInfos infos m) nf).trace,
        success := (batchLoop env rest (updateTableMapByDBTableInfos infos m) nf).success } := by
  simp only [batchLoop, he]

/-- The endpoint-not-found flag after the batch loop: the incoming flag, or
whether the first failing request carried the 404 signal. -/
theorem batchLoop_notFound (env : TidbEnv) :
    ∀ (bs : List (List String)) (m : TableMap) (nf : Bool),
      (batchLoop env bs m nf).notFound = (nf || firstFail404 env bs)
  | [], m, nf => by simp [batchLoop_nil, firstFail404]
  | b :: rest, m, nf => by
    unfold firstFail404
    cases hreq : env.dbTable (dbTablePath b) with
    | error e =>
      rw [batchLoop_cons_err env b rest m nf e hreq]
      cases h4 : strContains e.msg "404" <;> simp [h4]
    | ok infos =>
      rw [batchLoop_cons_ok env b rest m nf infos hreq]
      exact batchLoop_notFound env rest (updateTableMapByDBTableInfos infos m) nf

/-- When every batched request succeeds, the loop issues exactly one request per
batch and reports success. -/
theorem batchLoop_all_ok (env : TidbEnv) :
    ∀ (bs : List (List String)) (m : TableMap) (nf : Bool),
      (∀ b ∈ bs, reqOk (env.dbTable (dbTablePath b)) = true) →
      (batchLoop env bs m nf).trace.length = bs.length ∧
        (batchLoop env bs m nf).success = true
  | [], m, nf, _ => by simp [batchLoop_nil]
  | b :: rest, m, nf, h => by
    cases hreq : env.dbTable (dbTablePath b) with
    | error e =>
      have hb := h b (List.mem_cons_self b rest)
      rw [hreq] at hb
      simp [reqOk] at hb
    | ok infos =>
      have ih := batchLoop_all_ok env rest (updateTableMapByDBTableInfos infos m) nf
        (fun x hx => h x (List.mem_cons_of_mem _ hx))
      rw [batchLoop_cons_ok env b rest m nf infos hreq]
      simp [ih.1, ih.2]

/-- The first batch's request is always issued. -/
theorem batchLoop_mem_head (env : TidbEnv) (b : List String) (rest : List (List String))
    (m : TableMap) (nf : Bool) :
    Req.dbTable (dbTablePath b) ∈ (batchLoop env (b :: rest) m nf).trace := by
  cases hreq : env.dbTable (dbTablePath b) with
  | error e =>
    rw [batchLoop_cons_err env b rest m nf e hreq]
    simp
  | ok infos =>
    rw [batchLoop_cons_ok env b rest m nf infos hreq]
    simp

/-- Every request the batch loop issues is a `/db-table` request. -/
theorem batchLoop_trace_shape (env : TidbEnv) :
    ∀ (bs : List (List String)) (m : TableMap) (nf : Bool),
      ∀ r ∈ (batchLoop env bs m nf).trace, ∃ q, r = Req.dbTable q
  | [], m, nf => by simp [batchLoop_nil]
  | b :: rest, m, nf => by
    cases hreq : env.dbTable (dbTablePath b) with
    | error e =>
      rw [batchLoop_cons_err env b rest m nf e hreq]
      simp
    | ok infos =>
      rw [batchLoop_cons_ok env b rest m nf infos hreq]
      intro r hr
      rcases List.mem_cons.mp hr with rfl | hr'
      · exact ⟨dbTablePath b, rfl⟩
      · exact batchLoop_trace_shape env rest (updateTableMapByDBTableInfos infos m) nf r hr'

/-- The batch loop never removes lookup entries. -/
theorem batchLoop_grows (env : TidbEnv) :
    ∀ (bs : List (List String)) (m : TableMap) (nf : Bool),
      ∃ l, (batchLoop env bs m nf).tableMap = l ++ m
  | [], m, nf => ⟨[], rfl⟩
  | b :: rest, m, nf => by
    cases hreq : env.dbTable (dbTablePath b) with
    | error e =>
      rw [batchLoop_cons_err env b rest m nf e hreq]
      exact ⟨[], rfl⟩
    | ok infos =>
      rw [batchLoop_cons_ok env b rest m nf infos hreq]
      obtain ⟨l1, hl1, _⟩ := updateTableMapByDBTableInfos_grows infos m
      obtain ⟨l2, hl2⟩ := batchLoop_grows env rest (updateTableMapByDBTableInfos infos m) nf
      refine ⟨l2 ++ l1, ?_⟩
      show (batchLoop env rest (updateTableMapByDBTableInfos infos m) nf).tableMap = l2 ++ l1 ++ m
      rw [hl2, hl1, List.append_assoc]

/-! ## Helper lemmas: the full-scan strategy -/

theorem fullScanLoop_nil (env : TidbEnv) (m : TableMap) :
    fullScanLoop env [] m = { tableMap := m, trace := [], success := true } :=
  rfl

theorem fullScanLoop_cons_skip (env : TidbEnv) (db : DBInfo) (rest : List DBInfo)
    (m : TableMap) (h : db.state = SchemaState.stateNone) :
    fullScanLoop env (db :: rest) m = fullScanLoop env rest m := by
  simp only [fullScanLoop, h, if_true]

theorem fullScanLoop_cons_err (env : TidbEnv) (db : DBInfo) (rest : List DBInfo)
    (m : TableMap) (e : ReqErr) (h : ¬db.state = SchemaState.stateNone)
    (he : env.schemaDb (schemaDbPath db.name) = Except.error e) :
    fullScanLoop env (db :: rest) m =
      { tableMap := (fullScanLoop env rest m).tableMap,
        trace := Req.schemaDb (schemaDbPath db.name) :: (fullScanLoop env rest m).trace,
        success := false } := by
  simp only [fullScanLoop, if_neg h, he]

theorem fullScanLoop_cons_ok (env : TidbEnv) (db : DBInfo) (rest : List DBInfo)
    (m : TableMap) (tis : List TableInfo) (h : ¬db.state = SchemaState.stateNone)
    (he : env.schemaDb (schemaDbPath db.name) = Except.ok tis) :
    fullScanLoop env (db :: rest) m =
      { tableMap := (fullScanLoop env rest (updateTableMap db.name tis m)).tableMap,
        trace := Req.schemaDb (schemaDbPath db.name) ::
          (fullScanLoop env rest (updateTableMap db.name tis m)).trace,
        success := (fullScanLoop env rest (updateTableMap db.name tis m)).success } := by
  simp only [fullScanLoop, if_neg h, he]

/-- The full scan succeeds exactly when every non-skipped database's table-list
request succeeds (independently of the lookup map it writes into). -/
theorem fullScanLoop_success_iff (env : TidbEnv) :
    ∀ (dbs : List DBInfo) (m : TableMap),
      (fullScanLoop env dbs m).success = true ↔
        ∀ db ∈ dbs, db.state ≠ SchemaState.stateNone →
          reqOk (env.schemaDb (schemaDbPath db.name)) = true
  | [], m => by simp [fullScanLoop_nil]
  | db :: rest, m => by
    by_cases hst : db.state = SchemaState.stateNone
    · rw [fullScanLoop_cons_skip env db rest m hst,
        fullScanLoop_success_iff env rest m]
      constructor
      · intro h x hx hxs
        rcases List.mem_cons.mp hx with rfl | hx'
        · exact absurd hst hxs
        · exact h x hx' hxs
      · intro h x hx hxs
        exact h x (List.mem_cons_of_mem _ hx) hxs
    · cases hreq : env.schemaDb (schemaDbPath db.name) with
      | error e =>
        rw [fullScanLoop_cons_err env db rest m e hst hreq]
        constructor
        · intro hfalse
          simp at hfalse
        · intro h
          exfalso
          have := h db (List.mem_cons_self db rest) hst
          rw [hreq] at this
          simp [reqOk] at this
      | ok tis =>
        rw [fullScanLoop_cons_ok env db rest m tis hst hreq]
        show (fullScanLoop env rest (updateTableMap db.name tis m)).success = true ↔ _
        rw [fullScanLoop_success_iff env rest (updateTableMap db.name tis m)]
        constructor
        · intro h x hx hxs
          rcases List.mem_cons.mp hx with rfl | hx'
          · rw [hreq]
            rfl
          · exact h x hx' hxs
        · intro h x hx hxs
          exact h x (List.mem_cons_of_mem _ hx) hxs

/-- Every request the full-scan loop issues is a per-database `/schema/<db>`
request, and only live databases are requested. -/
theorem fullScanLoop_trace_shape (env : TidbEnv) :
    ∀ (dbs : List DBInfo) (m : TableMap),
      ∀ r ∈ (fullScanLoop env dbs m).trace,
        ∃ db ∈ dbs, ¬db.state = SchemaState.stateNone ∧ r = Req.schemaDb (schemaDbPath db.name)
  | [], m => by simp [fullScanLoop_nil]
  | db :: rest, m => by
    by_cases hst : db.state = SchemaState.stateNone
    · rw [fullScanLoop_cons_skip env db rest m hst]
      intro r hr
      obtain ⟨x, hx, hxs, hxr⟩ := fullScanLoop_trace_shape env rest m r hr
      exact ⟨x, List.mem_cons_of_mem _ hx, hxs, hxr⟩
    · cases hreq : env.schemaDb (schemaDbPath db.name) with
      | error e =>
        rw [fullScanLoop_cons_err env db rest m e hst hreq]
        intro r hr
        rcases List.mem_cons.mp hr with rfl | hr'
        · exact ⟨db, List.mem_cons_self db rest, hst, rfl⟩
        · obtain ⟨x, hx, hxs, hxr⟩ := fullScanLoop_trace_shape env rest m r hr'
          exact ⟨x, List.mem_cons_of_mem _ hx, hxs, hxr⟩
      | ok tis =>
        rw [fullScanLoop_cons_ok env db rest m tis hst hreq]
        intro r hr
        rcases List.mem_cons.mp hr with rfl | hr'
        · exact ⟨db, List.mem_cons_self db rest, hst, rfl⟩
        · obtain ⟨x, hx, hxs, hxr⟩ :=
            fullScanLoop_trace_shape env rest (updateTableMap db.name tis m) r hr'
          exact ⟨x, List.mem_cons_of_mem _ hx, hxs, hxr⟩

/-- The full-scan loop never removes lookup entries. -/
theorem fullScanLoop_grows (env : TidbEnv) :
    ∀ (dbs : List DBInfo) (m : TableMap),
      ∃ l, (fullScanLoop env dbs m).tableMap = l ++ m
  | [], m => ⟨[], rfl⟩
  | db :: rest, m => by
    by_cases hst : db.state = SchemaState.stateNone
    · rw [fullScanLoop_cons_skip env db rest m hst]
      exact fullScanLoop_grows env rest m
    · cases hreq : env.schemaDb (schemaDbPath db.name) with
      | error e =>
        rw [fullScanLoop_cons_err env db rest m e hst hreq]
        exact fullScanLoop_grows env rest m
      | ok tis =>
        rw [fullScanLoop_cons_ok env db rest m tis hst hreq]
        obtain ⟨l1, hl1, _⟩ := updateTableMap_grows db.name tis m
        obtain ⟨l2, hl2⟩ := fullScanLoop_grows env rest (updateTableMap db.name tis m)
        refine ⟨l2 ++ l1, ?_⟩
        show (fullScanLoop env rest (updateTableMap db.name tis m)).tableMap = l2 ++ l1 ++ m
        rw [hl2, hl1, List.append_assoc]

/-! ## Helper lemmas: the full-scan tail and the whole cycle -/

theorem fullScanPhase_err (env : TidbEnv) (s : LabelState) (v : Int) (tr : List Req)
    (e : ReqErr) (he : env.schema = Except.error e) :
    fullScanPhase env s v tr = (s, tr ++ [Req.schema "/schema"]) := by
  simp only [fullScanPhase, he]

theorem fullScanPhase_ok_commit (env : TidbEnv) (s : LabelState) (v : Int) (tr : List Req)
    (dbs : List DBInfo) (he : env.schema = Except.ok dbs)
    (hs : (fullScanLoop env dbs s.tableMap).success = true) :
    fullScanPhase env s v tr =
      ({ s with tableMap := (fullScanLoop env dbs s.tableMap).tableMap, schemaVersion := v },
        (tr ++ [Req.schema "/schema"]) ++ (fullScanLoop env dbs s.tableMap).trace) := by
  simp only [fullScanPhase, he, hs, if_true]

theorem fullScanPhase_ok_nocommit (env : TidbEnv) (s : LabelState) (v : Int) (tr : List Req)
    (dbs : List DBInfo) (he : env.schema = Except.ok dbs)
    (hs : (fullScanLoop env dbs s.tableMap).success = false) :
    fullScanPhase env s v tr =
      ({ s with tableMap := (fullScanLoop env dbs s.tableMap).tableMap },
        (tr ++ [Req.schema "/schema"]) ++ (fullScanLoop env dbs s.tableMap).trace) := by
  simp [fullScanPhase, he, hs]

/-- The full-scan tail never touches the capability flag. -/
theorem fullScanPhase_flag (env : TidbEnv) (s : LabelState) (v : Int) (tr : List Req) :
    (fullScanPhase env s v tr).1.dbTableInfosEndpointNotFound =
      s.dbTableInfosEndpointNotFound := by
  cases he : env.schema with
  | error e => rw [fullScanPhase_err env s v tr e he]
  | ok dbs =>
    cases hs : (fullScanLoop env dbs s.tableMap).success with
    | true => rw [fullScanPhase_ok_commit env s v tr dbs he hs]
    | false => rw [fullScanPhase_ok_nocommit env s v tr dbs he hs]

/-- The full-scan tail leaves the version marker at the new value or the old one. -/
theorem fullScanPhase_version_or (env : TidbEnv) (s : LabelState) (v : Int) (tr : List Req) :
    (fullScanPhase env s v tr).1.schemaVersion = v ∨
      (fullScanPhase env s v tr).1.schemaVersion = s.schemaVersion := by
  cases he : env.schema with
  | error e =>
    rw [fullScanPhase_err env s v tr e he]
    exact Or.inr rfl
  | ok dbs =>
    cases hs : (fullScanLoop env dbs s.tableMap).success with
    | true =>
      rw [fullScanPhase_ok_commit env s v tr dbs he hs]
      exact Or.inl rfl
    | false =>
      rw [fullScanPhase_ok_nocommit env s v tr dbs he hs]
      exact Or.inr rfl

/-- The full-scan tail commits the new version marker exactly when the database
list was fetched and every non-skipped database's table list was fetched. -/
theorem fullScanPhase_commit_iff (env : TidbEnv) (s : LabelState) (v : Int) (tr : List Req)
    (hv : v ≠ s.schemaVersion) :
    (fullScanPhase env s v tr).1.schemaVersion = v ↔
      ∃ dbs, env.schema = Except.ok dbs ∧
        ∀ db ∈ dbs, db.state ≠ SchemaState.stateNone →
          reqOk (env.schemaDb (schemaDbPath db.name)) = true := by
  cases he : env.schema with
  | error e =>
    rw [fullScanPhase_err env s v tr e he]
    constructor
    · intro h
      exact absurd h.symm (Ne.symm (fun hh => hv hh.symm))
    · rintro ⟨dbs, hdbs, -⟩
      cases hdbs
  | ok dbs =>
    cases hs : (fullScanLoop env dbs s.tableMap).success with
    | true =>
      rw [fullScanPhase_ok_commit env s v tr dbs he hs]
      constructor
      · intro _
        exact ⟨dbs, rfl, (fullScanLoop_success_iff env dbs s.tableMap).mp hs⟩
      · intro _
        rfl
    | false =>
      rw [fullScanPhase_ok_nocommit env s v tr dbs he hs]
      constructor
      · intro h
        exact absurd h (fun hh => hv hh.symm)
      · rintro ⟨dbs2, hdbs2, hall⟩
        cases hdbs2
        have := (fullScanLoop_success_iff env dbs s.tableMap).mpr hall
        rw [hs] at this
        cases this

/-- The full-scan tail appends to the incoming trace: first the `/schema` request,
then only per-database requests for live databases. -/
theorem fullScanPhase_trace (env : TidbEnv) (s : LabelState) (v : Int) (tr : List Req) :
    ∃ l, (fullScanPhase env s v tr).2 = tr ++ Req.schema "/schema" :: l ∧
      ∀ r ∈ l, ∃ q, r = Req.schemaDb q := by
  cases he : env.schema with
  | error e =>
    rw [fullScanPhase_err env s v tr e he]
    exact ⟨[], rfl, by simp⟩
  | ok dbs =>
    have hshape := fullScanLoop_trace_shape env dbs s.tableMap
    cases hs : (fullScanLoop env dbs s.tableMap).success with
    | true =>
      rw [fullScanPhase_ok_commit env s v tr dbs he hs]
      refine ⟨(fullScanLoop env dbs s.tableMap).trace, by simp, ?_⟩
      intro r hr
      obtain ⟨db, -, -, hrq⟩ := hshape r hr
      exact ⟨schemaDbPath db.name, hrq⟩
    | false =>
      rw [fullScanPhase_ok_nocommit env s v tr dbs he hs]
      refine ⟨(fullScanLoop env dbs s.tableMap).trace, by simp, ?_⟩
      intro r hr
      obtain ⟨db, -, -, hrq⟩ := hshape r hr
      exact ⟨schemaDbPath db.name, hrq⟩

/-- The full-scan tail never removes lookup entries. -/
theorem fullScanPhase_grows (env : TidbEnv) (s : LabelState) (v : Int) (tr : List Req) :
    ∃ l, (fullScanPhase env s v tr).1.tableMap = l ++ s.tableMap := by
  cases he : env.schema with
  | error e =>
    rw [fullScanPhase_err env s v tr e he]
    exact ⟨[], rfl⟩
  | ok dbs =>
    obtain ⟨l, hl⟩ := fullScanLoop_grows env dbs s.tableMap
    cases hs : (fullScanLoop env dbs s.tableMap).success with
    | true =>
      rw [fullScanPhase_ok_commit env s v tr dbs he hs]
      exact ⟨l, hl⟩
    | false =>
      rw [fullScanPhase_ok_nocommit env s v tr dbs he hs]
      exact ⟨l, hl⟩

theorem updateMap_etcdErr (env : TidbEnv) (s : LabelState) (h : env.etcd = none) :
    updateMap env s = (s, [Req.etcdGet schemaVersionPath]) := by
  simp only [updateMap, h]

theorem updateMap_kvsNotOne (env : TidbEnv) (s : LabelState) (resp : EtcdResp)
    (h : env.etcd = some resp) (h2 : resp.kvs.length ≠ 1) :
    updateMap env s = (s, [Req.etcdGet schemaVersionPath]) := by
  simp only [updateMap, h]
  rcases hk : resp.kvs with - | ⟨kv, - | ⟨kv2, rest⟩⟩
  · rfl
  · exfalso
    rw [hk] at h2
    exact h2 rfl
  · rfl

theorem updateMap_parseFail (env : TidbEnv) (s : LabelState) (resp : EtcdResp) (kv : EtcdKv)
    (h : env.etcd = some resp) (h2 : resp.kvs = [kv]) (h3 : parseInt64 kv.value = none) :
    updateMap env s = (s, [Req.etcdGet schemaVersionPath]) := by
  simp only [updateMap, h, h2, h3]

theorem updateMap_unchanged (env : TidbEnv) (s : LabelState) (resp : EtcdResp) (kv : EtcdKv)
    (h : env.etcd = some resp) (h2 : resp.kvs = [kv])
    (h3 : parseInt64 kv.value = some s.schemaVersion) :
    updateMap env s = (s, [Req.etcdGet schemaVersionPath]) := by
  simp only [updateMap, h, h2, h3, eq_self_iff_true, if_true]

theorem updateMap_changed (env : TidbEnv) (s : LabelState) (resp : EtcdResp) (kv : EtcdKv)
    (v : Int) (h : env.etcd = some resp) (h2 : resp.kvs = [kv])
    (h3 : parseInt64 kv.value = some v) (h4 : v ≠ s.schemaVersion) :
    updateMap env s = updateMapChanged env s v [Req.etcdGet schemaVersionPath] := by
  simp only [updateMap, h, h2, h3, if_neg h4]

theorem updateMapChanged_noProvider (env : TidbEnv) (s : LabelState) (v : Int) (tr : List Req)
    (h : env.getTableIDs = none) :
    updateMapChanged env s v tr = fullScanPhase env s v tr := by
  cases hf : s.dbTableInfosEndpointNotFound <;> simp only [updateMapChanged, h, hf]

theorem updateMapChanged_flagSet (env : TidbEnv) (s : LabelState) (v : Int) (tr : List Req)
    (h : s.dbTableInfosEndpointNotFound = true) :
    updateMapChanged env s v tr = fullScanPhase env s v tr := by
  cases hp : env.getTableIDs <;> simp only [updateMapChanged, h, hp]

theorem updateMapChanged_emptyIds (env : TidbEnv) (s : LabelState) (v : Int) (tr : List Req)
    (h : env.getTableIDs = some []) (hf : s.dbTableInfosEndpointNotFound = false) :
    updateMapChanged env s v tr = (s, tr) := by
  simp only [updateMapChanged, h, hf, List.length_nil, eq_self_iff_true, if_true]

theorem updateMapChanged_batch_commit (env : TidbEnv) (s : LabelState) (v : Int)
    (tr : List Req) (ids : List Int) (h : env.getTableIDs = some ids)
    (hf : s.dbTableInfosEndpointNotFound = false) (hne : ids ≠ [])
    (hsucc : (batchLoop env (mkBatches ids) s.tableMap false).success = true) :
    updateMapChanged env s v tr =
      ({ s with
          tableMap := (batchLoop env (mkBatches ids) s.tableMap false).tableMap,
          dbTableInfosEndpointNotFound :=
            (batchLoop env (mkBatches ids) s.tableMap false).notFound,
          schemaVersion := v },
        tr ++ (batchLoop env (mkBatches ids) s.tableMap false).trace) := by
  have hlen : ids.length ≠ 0 := fun hh => hne (List.length_eq_zero.mp hh)
  simp only [updateMapChanged, h, hf, if_neg hlen, hsucc, if_true]

theorem updateMapChanged_batch_fb (env : TidbEnv) (s : LabelState) (v : Int)
    (tr : List Req) (ids : List Int) (h : env.getTableIDs = some ids)
    (hf : s.dbTableInfosEndpointNotFound = false) (hne : ids ≠ [])
    (hsucc : (batchLoop env (mkBatches ids) s.tableMap false).success = false) :
    updateMapChanged env s v tr =
      fullScanPhase env
        { s with
          tableMap := (batchLoop env (mkBatches ids) s.tableMap false).tableMap,
          dbTableInfosEndpointNotFound :=
            (batchLoop env (mkBatches ids) s.tableMap false).notFound }
        v (tr ++ (batchLoop env (mkBatches ids) s.tableMap false).trace) := by
  have hlen : ids.length ≠ 0 := fun hh => hne (List.length_eq_zero.mp hh)
  have hs2 : ¬(batchLoop env (mkBatches ids) s.tableMap false).success = true := by
    simp [hsucc]
  simp only [updateMapChanged, h, hf, if_neg hlen, if_neg hs2]

/-- A whole changed-version cycle never removes lookup entries. -/
theorem updateMapChanged_grows (env : TidbEnv) (s : LabelState) (v : Int) (tr : List Req) :
    ∃ l, (updateMapChanged env s v tr).1.tableMap = l ++ s.tableMap := by
  cases hp : env.getTableIDs with
  | none =>
    rw [updateMapChanged_noProvider env s v tr hp]
    exact fullScanPhase_grows env s v tr
  | some ids =>
    cases hf : s.dbTableInfosEndpointNotFound with
    | true =>
      rw [updateMapChanged_flagSet env s v tr hf]
      exact fullScanPhase_grows env s v tr
    | false =>
      by_cases hemp : ids = []
      · subst hemp
        rw [updateMapChanged_emptyIds env s v tr hp hf]
        exact ⟨[], rfl⟩
      · have hne : ids ≠ [] := hemp
        obtain ⟨l1, hl1⟩ := batchLoop_grows env (mkBatches ids) s.tableMap false
        cases hsucc : (batchLoop env (mkBatches ids) s.tableMap false).success with
        | true =>
          rw [updateMapChanged_batch_commit env s v tr ids hp hf hne hsucc]
          exact ⟨l1, hl1⟩
        | false =>
          rw [updateMapChanged_batch_fb env s v tr ids hp hf hne hsucc]
          obtain ⟨l2, hl2⟩ := fullScanPhase_grows env
            { s with
              tableMap := (batchLoop env (mkBatches ids) s.tableMap false).tableMap,
              dbTableInfosEndpointNotFound :=
                (batchLoop env (mkBatches ids) s.tableMap false).notFound }
            v (tr ++ (batchLoop env (mkBatches ids) s.tableMap false).trace)
          refine ⟨l2 ++ l1, ?_⟩
          rw [hl2]
          show l2 ++ (batchLoop env (mkBatches ids) s.tableMap false).tableMap = _
          rw [hl1, List.append_assoc]

/-- A whole refresh cycle never removes lookup entries. -/
theorem updateMap_grows (env : TidbEnv) (s : LabelState) :
    ∃ l, (updateMap env s).1.tableMap = l ++ s.tableMap := by
  cases he : env.etcd with
  | none =>
    rw [updateMap_etcdErr env s he]
    exact ⟨[], rfl⟩
  | some resp =>
    rcases hk : resp.kvs with - | ⟨kv, - | ⟨kv2, rest⟩⟩
    · rw [updateMap_kvsNotOne env s resp he (by rw [hk]; simp)]
      exact ⟨[], rfl⟩
    · cases hp : parseInt64 kv.value with
      | none =>
        rw [updateMap_parseFail env s resp kv he hk hp]
        exact ⟨[], rfl⟩
      | some v =>
        by_cases hv : v = s.schemaVersion
        · subst hv
          rw [updateMap_unchanged env s resp kv he hk hp]
          exact ⟨[], rfl⟩
        · rw [updateMap_changed env s resp kv v he hk hp hv]
          exact updateMapChanged_grows env s v [Req.etcdGet schemaVersionPath]
    · rw [updateMap_kvsNotOne env s resp he (by rw [hk]; simp)]
      exact ⟨[], rfl⟩

/-- With the capability flag set, a cycle keeps it set and issues no batched
request. -/
theorem updateMap_flagTrue (env : TidbEnv) (s : LabelState)
    (h : s.dbTableInfosEndpointNotFound = true) :
    (updateMap env s).1.dbTableInfosEndpointNotFound = true ∧
      ∀ p, Req.dbTable p ∉ (updateMap env s).2 := by
  have hskip : ∀ h2 : updateMap env s = (s, [Req.etcdGet schemaVersionPath]),
      (updateMap env s).1.dbTableInfosEndpointNotFound = true ∧
        ∀ p, Req.dbTable p ∉ (updateMap env s).2 := by
    intro h2
    rw [h2]
    exact ⟨h, by simp⟩
  have hfs : ∀ v, updateMap env s = updateMapChanged env s v [Req.etcdGet schemaVersionPath] →
      (updateMap env s).1.dbTableInfosEndpointNotFound = true ∧
        ∀ p, Req.dbTable p ∉ (updateMap env s).2 := by
    intro v h2
    rw [h2, updateMapChanged_flagSet env s v _ h]
    constructor
    · rw [fullScanPhase_flag]
      exact h
    · obtain ⟨l, hl, hshape⟩ := fullScanPhase_trace env s v [Req.etcdGet schemaVersionPath]
      rw [hl]
      intro p hp
      rcases List.mem_append.mp hp with hp1 | hp2
      · simp at hp1
      · rcases List.mem_cons.mp hp2 with hp3 | hp4
        · cases hp3
        · obtain ⟨q, hq⟩ := hshape _ hp4
          cases hq
  cases he : env.etcd with
  | none => exact hskip (updateMap_etcdErr env s he)
  | some resp =>
    rcases hk : resp.kvs with - | ⟨kv, - | ⟨kv2, rest⟩⟩
    · exact hskip (updateMap_kvsNotOne env s resp he (by rw [hk]; simp))
    · cases hp : parseInt64 kv.value with
      | none => exact hskip (updateMap_parseFail env s resp kv he hk hp)
      | some v =>
        by_cases hv : v = s.schemaVersion
        · subst hv
          exact hskip (updateMap_unchanged env s resp kv he hk hp)
        · exact hfs v (updateMap_changed env s resp kv v he hk hp hv)
    · exact hskip (updateMap_kvsNotOne env s resp he (by rw [hk]; simp))

/-! ## Helper lemmas: batch chunking arithmetic -/

theorem mkBatchesAux_flatten :
    ∀ (ids : List Int) (bs : List (List String)) (batch : List String) (n : Nat),
      (mkBatchesAux bs batch n ids).flatten = bs.flatten ++ batch ++ ids.map formatInt
  | [], bs, batch, n => by
    by_cases hb : batch.length > 0
    · simp [mkBatchesAux, hb]
    · have hb0 : batch = [] := List.length_eq_zero.mp (by omega)
      subst hb0
      simp [mkBatchesAux]
  | id :: ids, bs, batch, n => by
    simp only [mkBatchesAux]
    by_cases hn : n + 1 = tableInfosBatchSize
    · rw [if_pos hn, mkBatchesAux_flatten ids (bs ++ [batch ++ [formatInt id]]) [] 0]
      simp
    · rw [if_neg hn, mkBatchesAux_flatten ids bs (batch ++ [formatInt id]) (n + 1)]
      simp

/-- Each identifier lands in exactly one batch: the batches flatten back to the
formatted identifier sequence. -/
theorem mkBatches_flatten (ids : List Int) :
    (mkBatches ids).flatten = ids.map formatInt := by
  unfold mkBatches
  rw [mkBatchesAux_flatten]
  simp

theorem chunkSizes_flush (k : Nat) :
    chunkSizes (tableInfosBatchSize + k) = tableInfosBatchSize :: chunkSizes k := by
  unfold chunkSizes tableInfosBatchSize
  have h1 : (512 + k) / 512 = k / 512 + 1 := by omega
  have h2 : (512 + k) % 512 = k % 512 := by omega
  rw [h1, h2, List.replicate_succ]
  simp

theorem mkBatchesAux_sizes :
    ∀ (ids : List Int) (bs : List (List String)) (batch : List String),
      batch.length < tableInfosBatchSize →
      (mkBatchesAux bs batch batch.length ids).map List.length =
        bs.map List.length ++ chunkSizes (batch.length + ids.length)
  | [], bs, batch, hlt => by
    by_cases hb : batch.length > 0
    · have hc : chunkSizes batch.length = [batch.length] := by
        unfold chunkSizes tableInfosBatchSize at *
        have h1 : batch.length / 512 = 0 := by omega
        have h2 : batch.length % 512 = batch.length := by omega
        rw [h1, h2, if_neg (by omega)]
        simp
      simp only [mkBatchesAux, if_pos hb, List.map_append, List.map_cons, List.map_nil,
        List.length_nil, Nat.add_zero, hc]
    · have hb0 : batch = [] := List.length_eq_zero.mp (by omega)
      subst hb0
      simp [mkBatchesAux, chunkSizes]
  | id :: ids, bs, batch, hlt => by
    simp only [mkBatchesAux]
    by_cases hn : batch.length + 1 = tableInfosBatchSize
    · rw [if_pos hn]
      have ih := mkBatchesAux_sizes ids (bs ++ [batch ++ [formatInt id]]) []
        (by simp [tableInfosBatchSize])
      simp only [List.length_nil] at ih
      rw [ih]
      have hb1 : (batch ++ [formatInt id]).length = tableInfosBatchSize := by
        simp only [List.length_append, List.length_singleton]
        exact hn
      have harith : batch.length + (id :: ids).length = tableInfosBatchSize + ids.length := by
        simp only [List.length_cons]
        omega
      rw [harith, chunkSizes_flush]
      simp [hb1]
    · rw [if_neg hn]
      have hlen : (batch ++ [formatInt id]).length = batch.length + 1 := by simp
      have hlt2 : (batch ++ [formatInt id]).length < tableInfosBatchSize := by
        rw [hlen]
        have := hlt
        unfold tableInfosBatchSize at *
        omega
      have ih := mkBatchesAux_sizes ids bs (batch ++ [formatInt id]) hlt2
      rw [hlen] at ih
      rw [ih]
      have harith : batch.length + 1 + ids.length = batch.length + (id :: ids).length := by
        simp only [List.length_cons]
        omega
      rw [harith]

/-- The batch sizes are full batches plus one remainder batch. -/
theorem mkBatches_sizes (ids : List Int) :
    (mkBatches ids).map List.length = chunkSizes ids.length := by
  unfold mkBatches
  have h := mkBatchesAux_sizes ids [] [] (by simp [tableInfosBatchSize])
  simpa using h

theorem chunkSizes_length (t : Nat) :
    (chunkSizes t).length = (t + (tableInfosBatchSize - 1)) / tableInfosBatchSize := by
  unfold chunkSizes tableInfosBatchSize
  by_cases h : t % 512 = 0 <;> simp [h] <;> omega

theorem mkBatches_ne_nil (ids : List Int) (h : ids ≠ []) : mkBatches ids ≠ [] := by
  intro hnil
  have h1 := mkBatches_sizes ids
  rw [hnil] at h1
  have hlen : ids.length ≠ 0 := fun hh => h (List.length_eq_zero.mp hh)
  have h2 : (chunkSizes ids.length).length = 0 := by
    rw [← h1]
    rfl
  rw [chunkSizes_length] at h2
  unfold tableInfosBatchSize at h2
  omega

/-! ## Helper lemmas: many cycles -/

/-- Once the capability flag is set, every later cycle keeps it set and never
issues a batched request. -/
theorem runCycles_flagTrue :
    ∀ (envs : List TidbEnv) (s : LabelState),
      s.dbTableInfosEndpointNotFound = true →
      (runCycles s envs).1.dbTableInfosEndpointNotFound = true ∧
        ∀ tr ∈ (runCycles s envs).2, ∀ p, Req.dbTable p ∉ tr
  | [], s, h => ⟨h, by simp [runCycles]⟩
  | env :: envs, s, h => by
    obtain ⟨h1, h2⟩ := updateMap_flagTrue env s h
    obtain ⟨ih1, ih2⟩ := runCycles_flagTrue envs (updateMap env s).1 h1
    simp only [runCycles]
    refine ⟨ih1, ?_⟩
    intro tr htr
    rcases List.mem_cons.mp htr with rfl | htr2
    · exact h2
    · exact ih2 tr htr2

/-! ## Claim theorems -/

/-- C3: if the version check fails (etcd error, a response without exactly one
key-value, or an unparseable value) or the fetched version equals the stored
marker, the refresh cycle performs no mutation at all — the state (version
marker, capability flag, lookup map) is returned unchanged and the only request
issued is the etcd version request; in particular a second refresh with an
unchanged version marker performs zero writes to the lookup. -/
theorem c3_version_gate_no_mutation (env : TidbEnv) (s : LabelState)
    (h : env.etcd = none ∨
      (∃ resp, env.etcd = some resp ∧ resp.kvs.length ≠ 1) ∨
      (∃ resp kv, env.etcd = some resp ∧ resp.kvs = [kv] ∧ parseInt64 kv.value = none) ∨
      (∃ resp kv, env.etcd = some resp ∧ resp.kvs = [kv] ∧
        parseInt64 kv.value = some s.schemaVersion)) :
    updateMap env s = (s, [Req.etcdGet schemaVersionPath]) := by
  rcases h with h | ⟨resp, h1, h2⟩ | ⟨resp, kv, h1, h2, h3⟩ | ⟨resp, kv, h1, h2, h3⟩
  · exact updateMap_etcdErr env s h
  · exact updateMap_kvsNotOne env s resp h1 h2
  · exact updateMap_parseFail env s resp kv h1 h2 h3
  · exact updateMap_unchanged env s resp kv h1 h2 h3

theorem c3_witness :
    (envSame.etcd = none ∨
      (∃ resp, envSame.etcd = some resp ∧ resp.kvs.length ≠ 1) ∨
      (∃ resp kv, envSame.etcd = some resp ∧ resp.kvs = [kv] ∧
        parseInt64 kv.value = none) ∨
      (∃ resp kv, envSame.etcd = some resp ∧ resp.kvs = [kv] ∧
        parseInt64 kv.value = some stateV5.schemaVersion)) ∧
    updateMap envSame stateV5 = (stateV5, [Req.etcdGet schemaVersionPath]) := by
  have h : envSame.etcd = none ∨
      (∃ resp, envSame.etcd = some resp ∧ resp.kvs.length ≠ 1) ∨
      (∃ resp kv, envSame.etcd = some resp ∧ resp.kvs = [kv] ∧
        parseInt64 kv.value = none) ∨
      (∃ resp kv, envSame.etcd = some resp ∧ resp.kvs = [kv] ∧
        parseInt64 kv.value = some stateV5.schemaVersion) :=
    Or.inr (Or.inr (Or.inr ⟨{ kvs := [{ value := "5" }] }, { value := "5" }, rfl, rfl, rfl⟩))
  exact ⟨h, c3_version_gate_no_mutation envSame stateV5 h⟩

/-- C1: the version marker is committed only by a fully successful strategy:
when the batched path is attempted and fully succeeds the marker moves to the
fetched version; when any batched request fails, the batch path does not commit,
the full scan runs in the same cycle, and the marker is updated exactly when the
database list was fetched and every non-skipped database's table list was
fetched successfully; on any partial failure the marker keeps its prior value. -/
theorem c1_commit_gating (env : TidbEnv) (s : LabelState) (resp : EtcdResp) (kv : EtcdKv)
    (v : Int) (ids : List Int)
    (h1 : env.etcd = some resp) (h2 : resp.kvs = [kv]) (h3 : parseInt64 kv.value = some v)
    (h4 : v ≠ s.schemaVersion) (h5 : env.getTableIDs = some ids) (h6 : ids ≠ [])
    (h7 : s.dbTableInfosEndpointNotFound = false) :
    ((batchLoop env (mkBatches ids) s.tableMap false).success = true →
      (updateMap env s).1.schemaVersion = v) ∧
    ((batchLoop env (mkBatches ids) s.tableMap false).success = false →
      (((updateMap env s).1.schemaVersion = v) ↔
        (∃ dbs, env.schema = Except.ok dbs ∧ ∀ db ∈ dbs,
          db.state ≠ SchemaState.stateNone →
            reqOk (env.schemaDb (schemaDbPath db.name)) = true)) ∧
      ((updateMap env s).1.schemaVersion = v ∨
        (updateMap env s).1.schemaVersion = s.schemaVersion)) := by
  rw [updateMap_changed env s resp kv v h1 h2 h3 h4]
  constructor
  · intro hsucc
    rw [updateMapChanged_batch_commit env s v _ ids h5 h7 h6 hsucc]
  · intro hfail
    rw [updateMapChanged_batch_fb env s v _ ids h5 h7 h6 hfail]
    constructor
    · exact fullScanPhase_commit_iff env
        { s with
          tableMap := (batchLoop env (mkBatches ids) s.tableMap false).tableMap,
          dbTableInfosEndpointNotFound :=
            (batchLoop env (mkBatches ids) s.tableMap false).notFound }
        v _ h4
    · exact fullScanPhase_version_or env
        { s with
          tableMap := (batchLoop env (mkBatches ids) s.tableMap false).tableMap,
          dbTableInfosEndpointNotFound :=
            (batchLoop env (mkBatches ids) s.tableMap false).notFound }
        v _

theorem c1_witness :
    (5 : Int) ≠ stateFresh.schemaVersion ∧ ([3] : List Int) ≠ [] ∧
    stateFresh.dbTableInfosEndpointNotFound = false ∧
    (batchLoop envBatchFail (mkBatches [3]) stateFresh.tableMap false).success = false ∧
    (updateMap envBatchFail stateFresh).1.schemaVersion = 5 := by
  have h := c1_commit_gating envBatchFail stateFresh { kvs := [{ value := "5" }] }
    { value := "5" } 5 [3] rfl rfl rfl (by decide) rfl (by decide) rfl
  refine ⟨by decide, by decide, rfl, rfl, ?_⟩
  exact ((h.2 rfl).1).mpr ⟨[liveDb], rfl, by decide⟩

/-- C2: the capability flag is set exactly when a batched request fails carrying
the "404" not-found signal, and once set it is never cleared — every later cycle
for the life of the process keeps it set and issues no `/db-table` request, even
with a non-empty identifier set and a changed version; a batch failure without
the 404 signal leaves the flag unset, and an eligible cycle always issues a
batched request (so the strategy is retried next cycle). -/
theorem c2_capability_sticky :
    (∀ (env : TidbEnv) (bs : List (List String)) (m : TableMap) (nf : Bool),
      (batchLoop env bs m nf).notFound = (nf || firstFail404 env bs)) ∧
    (∀ (s : LabelState) (envs : List TidbEnv),
      s.dbTableInfosEndpointNotFound = true →
      (runCycles s envs).1.dbTableInfosEndpointNotFound = true ∧
        ∀ tr ∈ (runCycles s envs).2, ∀ p, Req.dbTable p ∉ tr) ∧
    (∀ (env : TidbEnv) (s : LabelState) (resp : EtcdResp) (kv : EtcdKv) (v : Int)
      (ids : List Int),
      env.etcd = some resp → resp.kvs = [kv] → parseInt64 kv.value = some v →
      v ≠ s.schemaVersion → env.getTableIDs = some ids → ids ≠ [] →
      s.dbTableInfosEndpointNotFound = false →
      (updateMap env s).1.dbTableInfosEndpointNotFound = firstFail404 env (mkBatches ids) ∧
        ∃ p, Req.dbTable p ∈ (updateMap env s).2) := by
  refine ⟨batchLoop_notFound, ?_, ?_⟩
  · intro s envs h
    exact runCycles_flagTrue envs s h
  · intro env s resp kv v ids h1 h2 h3 h4 h5 h6 h7
    rw [updateMap_changed env s resp kv v h1 h2 h3 h4]
    obtain ⟨b, rest, hbr⟩ : ∃ b rest, mkBatches ids = b :: rest := by
      cases hmk : mkBatches ids with
      | nil => exact absurd hmk (mkBatches_ne_nil ids h6)
      | cons b rest => exact ⟨b, rest, rfl⟩
    cases hsucc : (batchLoop env (mkBatches ids) s.tableMap false).success with
    | true =>
      rw [updateMapChanged_batch_commit env s v _ ids h5 h7 h6 hsucc]
      constructor
      · show (batchLoop env (mkBatches ids) s.tableMap false).notFound = _
        rw [batchLoop_notFound]
        simp
      · refine ⟨dbTablePath b, ?_⟩
        show Req.dbTable (dbTablePath b) ∈
          [Req.etcdGet schemaVersionPath] ++ (batchLoop env (mkBatches ids) s.tableMap false).trace
        rw [List.mem_append]
        right
        rw [hbr]
        exact batchLoop_mem_head env b rest s.tableMap false
    | false =>
      rw [updateMapChanged_batch_fb env s v _ ids h5 h7 h6 hsucc]
      constructor
      · rw [fullScanPhase_flag]
        show (batchLoop env (mkBatches ids) s.tableMap false).notFound = _
        rw [batchLoop_notFound]
        simp
      · obtain ⟨l, hl, -⟩ := fullScanPhase_trace env
          { s with
            tableMap := (batchLoop env (mkBatches ids) s.tableMap false).tableMap,
            dbTableInfosEndpointNotFound :=
              (batchLoop env (mkBatches ids) s.tableMap false).notFound }
          v ([Req.etcdGet schemaVersionPath] ++
            (batchLoop env (mkBatches ids) s.tableMap false).trace)
        refine ⟨dbTablePath b, ?_⟩
        rw [hl]
        apply List.mem_append.mpr
        left
        apply List.mem_append.mpr
        right
        rw [hbr]
        exact batchLoop_mem_head env b rest s.tableMap false

theorem c2_witness :
    stateFlagSet.dbTableInfosEndpointNotFound = true ∧
    ((runCycles stateFlagSet [envAfter404, envBatchFail]).1.dbTableInfosEndpointNotFound = true ∧
      ∀ tr ∈ (runCycles stateFlagSet [envAfter404, envBatchFail]).2,
        ∀ p, Req.dbTable p ∉ tr) :=
  ⟨rfl, c2_capability_sticky.2.1 stateFlagSet [envAfter404, envBatchFail] rfl⟩

/-- C4 counterexample: with the version changed (5 versus unset -1), the
identifier provider present but returning the empty set, and every endpoint
healthy, the cycle does not perform a full scan: it issues only the version
request, writes nothing, and leaves the marker unset — contradicting the claim
that an empty supplied identifier set leads to a full scan committing the
fetched version. -/
theorem c4_counterexample :
    (updateMap envC4 stateFresh).1.schemaVersion = -1 ∧
    ¬(updateMap envC4 stateFresh).1.schemaVersion = 5 ∧
    (updateMap envC4 stateFresh).2 = [Req.etcdGet schemaVersionPath] ∧
    (updateMap envC4 stateFresh).1.tableMap = [] :=
  ⟨rfl, by decide, rfl, rfl⟩

/-- C4 (amended): when the version has changed and the identifier provider is
present (capability flag unset) but returns an empty set, the cycle returns
immediately — no further requests, no writes, marker unchanged ("nothing to
refresh"); the full-scan strategy is used when no provider is supplied, in which
case a fully successful scan commits the fetched version. -/
theorem c4_empty_idset_short_circuits (env : TidbEnv) (s : LabelState) (resp : EtcdResp)
    (kv : EtcdKv) (v : Int)
    (h1 : env.etcd = some resp) (h2 : resp.kvs = [kv]) (h3 : parseInt64 kv.value = some v)
    (h4 : v ≠ s.schemaVersion) (h7 : s.dbTableInfosEndpointNotFound = false) :
    (env.getTableIDs = some [] →
      updateMap env s = (s, [Req.etcdGet schemaVersionPath])) ∧
    (env.getTableIDs = none →
      Req.schema "/schema" ∈ (updateMap env s).2 ∧
      ∀ dbs, env.schema = Except.ok dbs →
        (fullScanLoop env dbs s.tableMap).success = true →
        (updateMap env s).1.schemaVersion = v) := by
  rw [updateMap_changed env s resp kv v h1 h2 h3 h4]
  constructor
  · intro hids
    exact updateMapChanged_emptyIds env s v _ hids h7
  · intro hids
    rw [updateMapChanged_noProvider env s v _ hids]
    constructor
    · obtain ⟨l, hl, -⟩ := fullScanPhase_trace env s v [Req.etcdGet schemaVersionPath]
      rw [hl]
      simp
    · intro dbs hdbs hsucc
      rw [fullScanPhase_ok_commit env s v _ dbs hdbs hsucc]

theorem c4_witness :
    stateFresh.dbTableInfosEndpointNotFound = false ∧
    envC4b.getTableIDs = none ∧
    Req.schema "/schema" ∈ (updateMap envC4b stateFresh).2 ∧
    (updateMap envC4b stateFresh).1.schemaVersion = 5 := by
  have h := c4_empty_idset_short_circuits envC4b stateFresh { kvs := [{ value := "5" }] }
    { value := "5" } 5 rfl rfl rfl (by decide) rfl
  obtain ⟨hm, hc⟩ := h.2 rfl
  exact ⟨rfl, rfl, hm, hc [liveDb] rfl (by decide)⟩

/-- C5: the batched fetcher partitions the identifier sequence into batches of
size exactly 512 with one final batch holding the non-zero remainder, each
identifier appearing in exactly one batch (the batches flatten back to the
formatted identifier sequence), and when every batched request succeeds it
issues exactly ceil(n/512) combined requests. -/
theorem c5_batch_chunking :
    (∀ ids : List Int, (mkBatches ids).flatten = ids.map formatInt) ∧
    (∀ ids : List Int, (mkBatches ids).map List.length = chunkSizes ids.length) ∧
    (∀ (env : TidbEnv) (ids : List Int) (m : TableMap) (nf : Bool),
      (∀ b ∈ mkBatches ids, reqOk (env.dbTable (dbTablePath b)) = true) →
      (batchLoop env (mkBatches ids) m nf).trace.length =
        (ids.length + (tableInfosBatchSize - 1)) / tableInfosBatchSize) := by
  refine ⟨mkBatches_flatten, mkBatches_sizes, ?_⟩
  intro env ids m nf h
  rw [(batchLoop_all_ok env (mkBatches ids) m nf h).1]
  have h2 : (mkBatches ids).length = (chunkSizes ids.length).length := by
    rw [← mkBatches_sizes ids, List.length_map]
  rw [h2, chunkSizes_length]

theorem c5_witness :
    (∀ b ∈ mkBatches ids517, reqOk (envC5.dbTable (dbTablePath b)) = true) ∧
    (batchLoop envC5 (mkBatches ids517) [] false).trace.length = 2 ∧
    (mkBatches ids517).map List.length = [512, 5] := by
  have hok : ∀ b ∈ mkBatches ids517, reqOk (envC5.dbTable (dbTablePath b)) = true := by
    intro b hb
    rfl
  refine ⟨hok, ?_, ?_⟩
  · exact c5_batch_chunking.2.2 envC5 ids517 [] false hok
  · exact c5_batch_chunking.2.1 ids517

/-- C6: for every table description carrying a partition list, the label builder
stores the table entry and one entry per partition whose name is exactly the
table name, a slash, and the partition name, whose database is the parent's,
whose key is the partition id, and whose index-name mapping is the parent
table's mapping built from the index list. -/
theorem c6_partition_entries (dbname : String) (t : TableInfo) (partInfo : PartitionInfo)
    (m : TableMap) (hp : getPartitionInfo t = some partInfo) :
    updateTableMap dbname [t] m =
      (partInfo.definitions.map fun pd =>
        ((pd.id : Int),
         ({ name := t.name ++ "/" ++ pd.name, db := dbname, id := pd.id,
            indices := mkIndices t.indices } : TableDetail))).reverse ++
      ((t.id, { name := t.name, db := dbname, id := t.id,
                indices := mkIndices t.indices }) :: m) := by
  have h1 : updateTableMap dbname [t] m = applyTable dbname t m := rfl
  rw [h1, applyTable_eq]
  unfold tableEntries
  rw [hp]
  simp [List.append_assoc]

theorem c6_witness :
    getPartitionInfo ordersTable = some { definitions := [{ id := 11, name := "p0" }] } ∧
    updateTableMap "db" [ordersTable] [] =
      [(11, { name := "orders/p0", db := "db", id := 11, indices := [(1, "idx")] }),
       (10, { name := "orders", db := "db", id := 10, indices := [(1, "idx")] })] :=
  ⟨rfl, c6_partition_entries "db" ordersTable { definitions := [{ id := 11, name := "p0" }] }
    [] rfl⟩

/-- C7: during a full scan, a database in the absent/dropped state (StateNone)
is skipped entirely — the loop's result (requests, lookup writes, success) with
that database present equals the result without it. -/
theorem c7_dropped_db_skipped (env : TidbEnv) (db : DBInfo) (rest : List DBInfo)
    (m : TableMap) (h : db.state = SchemaState.stateNone) :
    fullScanLoop env (db :: rest) m = fullScanLoop env rest m :=
  fullScanLoop_cons_skip env db rest m h

theorem c7_witness :
    droppedDb.state = SchemaState.stateNone ∧
    fullScanLoop envScan (droppedDb :: [liveDb]) [] = fullScanLoop envScan [liveDb] [] :=
  ⟨rfl, c7_dropped_db_skipped envScan droppedDb [liveDb] [] rfl⟩

/-- C8: in the full-scan strategy a failure fetching one database's table list
skips only that database (the map handed to the rest of the scan is unchanged,
the request is still recorded) while processing continues; any such failure
forces the cycle's success to false — for any database list containing the
failing database — so the version marker is not committed. -/
theorem c8_per_db_failure (env : TidbEnv) (db : DBInfo) (rest : List DBInfo) (m : TableMap)
    (e : ReqErr) (hst : db.state ≠ SchemaState.stateNone)
    (he : env.schemaDb (schemaDbPath db.name) = Except.error e) :
    (fullScanLoop env (db :: rest) m).tableMap = (fullScanLoop env rest m).tableMap ∧
    (fullScanLoop env (db :: rest) m).trace =
      Req.schemaDb (schemaDbPath db.name) :: (fullScanLoop env rest m).trace ∧
    (fullScanLoop env (db :: rest) m).success = false ∧
    (∀ (dbs : List DBInfo) (m2 : TableMap), db ∈ dbs →
      (fullScanLoop env dbs m2).success = false) ∧
    (∀ (s : LabelState) (v : Int) (tr : List Req) (dbs : List DBInfo),
      env.schema = Except.ok dbs → db ∈ dbs →
      (fullScanPhase env s v tr).1.schemaVersion = s.schemaVersion) := by
  have hkey : ∀ (dbs : List DBInfo) (m2 : TableMap), db ∈ dbs →
      (fullScanLoop env dbs m2).success = false := by
    intro dbs m2 hdb
    cases hsucc : (fullScanLoop env dbs m2).success with
    | false => rfl
    | true =>
      exfalso
      have hh := (fullScanLoop_success_iff env dbs m2).mp hsucc db hdb hst
      rw [he] at hh
      simp [reqOk] at hh
  refine ⟨?_, ?_, ?_, hkey, ?_⟩
  · rw [fullScanLoop_cons_err env db rest m e hst he]
  · rw [fullScanLoop_cons_err env db rest m e hst he]
  · rw [fullScanLoop_cons_err env db rest m e hst he]
  · intro s v tr dbs hdbs hdb
    rw [fullScanPhase_ok_nocommit env s v tr dbs hdbs (hkey dbs s.tableMap hdb)]

theorem c8_witness :
    failingDb.state ≠ SchemaState.stateNone ∧
    envScan.schemaDb (schemaDbPath failingDb.name) = Except.error { msg := "boom" } ∧
    (fullScanLoop envScan [failingDb, liveDb] []).success = false ∧
    (fullScanLoop envScan [failingDb, liveDb] []).tableMap =
      (fullScanLoop envScan [liveDb] []).tableMap := by
  have h := c8_per_db_failure envScan failingDb [liveDb] [] { msg := "boom" }
    (by decide) rfl
  exact ⟨by decide, rfl, h.2.2.1, h.1⟩

/-- C9: the lookup map only grows — each builder only pushes entries keyed by
identifiers encountered in the fetched descriptions on top of the map, a whole
refresh cycle only extends the map, and every identifier present before a
refresh is still present afterwards. -/
theorem c9_lookup_only_grows :
    (∀ (dbname : String) (ts : List TableInfo) (m : TableMap),
      ∃ l, updateTableMap dbname ts m = l ++ m ∧
        ∀ p ∈ l, p.1 ∈ (ts.map tableInfoIds).flatten) ∧
    (∀ (infos : List (Nat × DBTableInfo)) (m : TableMap),
      ∃ l, updateTableMapByDBTableInfos infos m = l ++ m ∧
        ∀ p ∈ l, p.1 ∈ (infos.map fun q => tableInfoIds q.2.tableInfo).flatten) ∧
    (∀ (env : TidbEnv) (s : LabelState),
      ∃ l, (updateMap env s).1.tableMap = l ++ s.tableMap) ∧
    (∀ (env : TidbEnv) (s : LabelState) (k : Int),
      (tableLookup s.tableMap k).isSome = true →
      (tableLookup (updateMap env s).1.tableMap k).isSome = true) := by
  refine ⟨updateTableMap_grows, updateTableMapByDBTableInfos_grows, updateMap_grows, ?_⟩
  intro env s k h
  obtain ⟨l, hl⟩ := updateMap_grows env s
  rw [hl]
  exact tableLookup_append_isSome l s.tableMap k h

theorem c9_witness :
    (tableLookup statePre.tableMap 99).isSome = true ∧
    (tableLookup (updateMap envC4b statePre).1.tableMap 99).isSome = true :=
  ⟨rfl, c9_lookup_only_grows.2.2.2 envC4b statePre 99 rfl⟩

/-- C10: the two apply paths agree — feeding the batched-path builder a combined
description pairing a database with a table stores exactly the same entries as
feeding the full-scan-path builder that database's name and the one-element
table list. -/
theorem c10_builders_agree (db : DBInfo) (t : TableInfo) (k : Nat) (m : TableMap) :
    updateTableMapByDBTableInfos [(k, { dbInfo := db, tableInfo := t })] m =
      updateTableMap db.name [t] m :=
  rfl

end TidbRequests
